import Mathlib

/-!
Verification of the meshmode array-context core (src/meshmode/array_context.py)
against its natural-language specification.  The Python source is shallowly
embedded: each modelled definition carries the name of the source function it
embeds.  Device arrays are modelled as records of shape, dtype name and flat
integer contents; device math functions are an abstract parameter, since the
kernel generator and graph-lowering engine are external collaborators that the
spec treats as opaque services.
-/

/-- Model of a host or device resident numeric array: shape, dtype and flat
contents.  Leaf payloads are integers since only structural and content
equality matter for the claims, never floating-point rounding. -/
structure NDArr where
  shape : List Nat
  dtype : String
  data : List Int
deriving DecidableEq

/-- Python exception kinds raised by the modelled code paths. -/
inductive PyError where
  | attributeError (name : String)
  | valueError (msg : String)
  | typeError (msg : String)
  | indexError
  | runtimeError
deriving DecidableEq

/-- Model of pyopencl.array.Array: contents together with the bound command
queue (none when detached, as produced by with_queue(None)) and the list of
pending completion events. -/
structure ClArray where
  arr : NDArr
  queue : Option Nat
  events : List Nat
deriving DecidableEq

/-- Model of pyopencl.array.Array.finish: wait on and clear pending events. -/
def ClArray.finish (a : ClArray) : ClArray := { a with events := [] }

/-- Model of pyopencl.array.Array.with_queue: rebind the command queue,
contents unchanged. -/
def ClArray.withQueue (a : ClArray) (q : Option Nat) : ClArray := { a with queue := q }

/-- Model of pyopencl.array.Array.get(queue=...): the explicit queue argument
takes precedence over the queue bound to the array; the device-to-host copy
preserves shape, dtype and contents.  A detached array read with an explicit
queue succeeds, which is how the lazy backend reads back frozen results. -/
def ClArray.get (a : ClArray) (q : Option Nat) : Except PyError NDArr :=
  match q with
  | some _ => .ok a.arr
  | none =>
    match a.queue with
    | some _ => .ok a.arr
    | none => .error (.valueError "no queue for get")

/-- Association list lookup with decidable key equality, modelling Python
dict lookup. -/
def assocLookup {α β : Type} [DecidableEq α] : List (α × β) → α → Option β
  | [], _ => none
  | (k, v) :: rest, key => if k = key then some v else assocLookup rest key

/-- The frozenset _BaseFakeNumpyNamespace._numpy_math_functions, transcribed
from the source. -/
def numpyMathFunctions : List String :=
  [ "sin", "cos", "tan", "arcsin", "arccos", "arctan", "hypot", "arctan2",
    "degrees", "radians", "unwrap", "deg2rad", "rad2deg",
    "sinh", "cosh", "tanh", "arcsinh", "arccosh", "arctanh",
    "around", "round_", "rint", "fix", "floor", "ceil", "trunc",
    "exp", "expm1", "exp2", "log", "log10", "log2", "log1p", "logaddexp",
    "logaddexp2",
    "i0", "sinc",
    "signbit", "copysign", "frexp", "ldexp", "nextafter", "spacing",
    "lcm", "gcd",
    "add", "reciprocal", "positive", "negative", "multiply", "divide", "power",
    "subtract", "true_divide", "floor_divide", "float_power", "fmod", "mod",
    "modf", "remainder", "divmod",
    "angle", "real", "imag",
    "convolve", "clip", "sqrt", "cbrt", "square", "absolute", "abs", "fabs",
    "sign", "heaviside", "maximum", "fmax", "nan_to_num" ]

/-- The dict _BaseFakeNumpyNamespace._numpy_to_c_arc_functions, transcribed
from the source. -/
def numpyToCArcFunctions : List (String × String) :=
  [ ("arcsin", "asin"), ("arccos", "acos"), ("arctan", "atan"),
    ("arctan2", "atan2"),
    ("arcsinh", "asinh"), ("arccosh", "acosh"), ("arctanh", "atanh") ]

/-- The dict _BaseFakeNumpyNamespace._c_to_numpy_arc_functions, computed from
the previous one by swapping pairs exactly as in the source. -/
def cToNumpyArcFunctions : List (String × String) :=
  numpyToCArcFunctions.map (fun p => (p.2, p.1))

/-- Result of attribute lookup on the fake numpy namespace: either a working
elementwise callable that will dispatch on the given device-side function
name, or a raised exception. -/
inductive GetattrRes where
  | elwise (cName : String)
  | err (e : PyError)
deriving DecidableEq

/-- Decides whether a modelled lookup outcome is the generic Python
AttributeError; the spec opposes this to a dedicated unsupported-operation
error. -/
def isGenericAttributeError : GetattrRes → Bool
  | .err (.attributeError _) => true
  | _ => false

/-- Model of _BaseFakeNumpyNamespace.__getattr__.  The Bool component records
whether the deprecation warning for legacy inverse-trig short forms fired.
Control flow follows the source exactly: warn when the name is a key of
_c_to_numpy_arc_functions, compute c_name by normalising through
_numpy_to_c_arc_functions, then allow-list the ORIGINAL name against
_numpy_math_functions and raise AttributeError(name) otherwise. -/
def fakeNumpyGetattr (name : String) : Bool × GetattrRes :=
  let warned := (assocLookup cToNumpyArcFunctions name).isSome
  let cName := (assocLookup numpyToCArcFunctions name).getD name
  if name ∈ numpyMathFunctions then (warned, .elwise cName)
  else (warned, .err (.attributeError name))

/-- Data that loopy_implemented_elwise_func passes to the kernel mechanism:
the device function name, the argument count, the iteration rank and the
domain size bindings n0, n1, ... taken from the first argument. -/
structure ElwiseDispatch where
  cName : String
  nargs : Nat
  naxes : Nat
  sizeArgs : List Nat
deriving DecidableEq

/-- Model of loopy_implemented_elwise_func inside __getattr__: the kernel key
uses naxes = len(args[0].shape) and the size parameters come from
args[0].shape; the shapes of the remaining arguments are never read.  An
empty argument list raises IndexError at args[0], modelled as none. -/
def loopyImplementedElwiseFunc (cName : String) (args : List NDArr) : Option ElwiseDispatch :=
  match args with
  | [] => none
  | a0 :: rest => some ⟨cName, rest.length + 1, a0.shape.length, a0.shape⟩

/-- Model of the loopy kernel object built by _get_scalar_func_loopy_program:
an elementwise assignment out[i0, ...] = cName(inp0[i0, ...], ...) over a
naxes-dimensional domain.  buildId models Python object identity: every
construction event yields a fresh id, so two kernels are the same object
exactly when their buildId agrees. -/
structure LoopyKernel where
  name : String
  cName : String
  nargs : Nat
  naxes : Nat
  buildId : Nat
deriving DecidableEq

/-- Construction of the kernel inside _get_scalar_func_loopy_program, named
actx_special_ followed by the device function name as in the source. -/
def makeScalarFuncKernel (cName : String) (nargs naxes : Nat) (freshId : Nat) : LoopyKernel :=
  ⟨"actx_special_" ++ cName, cName, nargs, naxes, freshId⟩

/-- Per-instance memoization cache installed by pytools memoize_method on
ArrayContext._get_scalar_func_loopy_program: an association from
(c_name, nargs, naxes) keys to the kernel built on first request, together
with a fresh-id counter modelling object allocation. -/
structure MemoCache where
  entries : List ((String × Nat × Nat) × LoopyKernel)
  nextId : Nat
deriving DecidableEq

/-- Model of ArrayContext._get_scalar_func_loopy_program under
memoize_method: a hit returns the cached object and leaves the cache
untouched; a miss builds the kernel, stores it and bumps the id counter. -/
def getScalarFuncLoopyProgram (st : MemoCache) (cName : String) (nargs naxes : Nat) :
    LoopyKernel × MemoCache :=
  match assocLookup st.entries (cName, nargs, naxes) with
  | some k => (k, st)
  | none =>
    let k := makeScalarFuncKernel cName nargs naxes st.nextId
    (k, ⟨((cName, nargs, naxes), k) :: st.entries, st.nextId + 1⟩)

/-- A world of several independently constructed context instances, each
owning its private memoization cache; the cache lives and dies with its
context entry. -/
def ctxWorldGet (w : List MemoCache) (ctx : Nat) (cName : String) (nargs naxes : Nat) :
    Option (LoopyKernel × List MemoCache) :=
  (w.get? ctx).map fun st =>
    let r := getScalarFuncLoopyProgram st cName nargs naxes
    (r.1, w.set ctx r.2)

/-- The wait_event_queue_length constructor argument of
PyOpenCLArrayContext: None (default), False (disabled) or an integer. -/
inductive WaitQueueArg where
  | default
  | disabled
  | bound (n : Nat)

/-- Model of the wait_event_queue_length normalisation in
PyOpenCLArrayContext.__init__: None becomes 10, False disables the feature
(none), an integer is kept. -/
def PyOpenCLArrayContext.initWaitEventQueueLength : WaitQueueArg → Option Nat
  | .default => some 10
  | .disabled => none
  | .bound n => some n

/-- The private dict _kernel_name_to_wait_event_queue: kernel name to the
list of not yet waited-on completion events, oldest first. -/
abbrev WaitState := List (String × List Nat)

/-- Insert or replace the binding of a kernel name in the wait-queue dict. -/
def upsertQueue : WaitState → String → List Nat → WaitState
  | [], nm, v => [(nm, v)]
  | (k, w) :: rest, nm, v =>
    if k = nm then (nm, v) :: rest else (k, w) :: upsertQueue rest nm v

/-- Model of the event bookkeeping in PyOpenCLArrayContext.call_loopy: when
the feature is enabled, fetch the queue for the kernel name (setdefault with
an empty list), append the new event, and if the length now exceeds the bound
pop the oldest event and wait on it synchronously.  A waited event leaves the
queue, so the queue holds exactly the un-waited tokens. -/
def PyOpenCLArrayContext.callLoopyEvent (b : Option Nat) (st : WaitState)
    (name : String) (evt : Nat) : WaitState :=
  match b with
  | none => st
  | some bd =>
    let q := (assocLookup st name).getD []
    let q1 := q ++ [evt]
    let q2 := if bd < q1.length then q1.drop 1 else q1
    upsertQueue st name q2

/-- A sequence of call_loopy dispatches (kernel name, completion event)
starting from the empty dict set up in __init__. -/
def PyOpenCLArrayContext.runDispatches (b : Option Nat) (ds : List (String × Nat)) : WaitState :=
  ds.foldl (fun st d => PyOpenCLArrayContext.callLoopyEvent b st d.1 d.2) []

/-- Number of un-waited completion tokens held for a kernel name. -/
def queueLen (st : WaitState) (name : String) : Nat :=
  ((assocLookup st name).getD []).length

/-- Model of PyOpenCLArrayContext.freeze: finish pending work on the array,
then detach it from the command queue. -/
def PyOpenCLArrayContext.freeze (a : ClArray) : ClArray := (a.finish).withQueue none

/-- Model of PyOpenCLArrayContext.thaw: reattach the array to the context
queue; no data movement. -/
def PyOpenCLArrayContext.thaw (q : Nat) (a : ClArray) : ClArray := a.withQueue (some q)

/-- Model of PyOpenCLArrayContext.to_numpy: array.get(queue=self.queue), the
context queue being passed explicitly. -/
def PyOpenCLArrayContext.toNumpy (q : Nat) (a : ClArray) : Except PyError NDArr :=
  a.get (some q)

/-- Model of PyOpenCLArrayContext.compile, which returns f unchanged. -/
def PyOpenCLArrayContext.compile {α β : Type} (f : α → β) : α → β := f

/-- Names in the shared pytato namespace of a PytatoArrayContext.  The
compile protocol uses placeholder names of the form _msh_inp_i_j; since
decimal numerals contain no underscore this naming is in bijection with the
index pair (i, j), which the mshInp constructor records directly.  Any other
name is a user-chosen placeholder name. -/
inductive PName where
  | mshInp (i j : Nat)
  | user (s : String)
deriving DecidableEq

/-- Leaf nodes of the lazy-backend expression graph: a placeholder (named
input without bound data, pt.Placeholder) or a data wrapper capturing a
concrete array (pt.array.DataWrapper). -/
inductive PLeaf where
  | placeholder (name : PName)
  | dataWrapper (a : NDArr)

/-- Leaves of the syntax of a traced user function: a reference to leaf j of
input field i, or a captured constant array. -/
inductive TLeaf where
  | input (i j : Nat)
  | const (a : NDArr)

mutual
/-- Expression trees over leaf type L with elementwise applications of named
device functions; with L = PLeaf this is the pytato graph node type, with
L = TLeaf it is the body of a pure traced user function. -/
inductive Expr (L : Type) where
  | leaf (x : L)
  | app (f : String) (args : ExprList L)
/-- Argument lists of Expr, as a mutual inductive so that recursion over the
graph stays structural. -/
inductive ExprList (L : Type) where
  | nil
  | cons (e : Expr L) (es : ExprList L)
end

/-- A symbolic graph node of the lazy backend. -/
abbrev PtNode := Expr PLeaf

/-- The body of a pure traced user function, one expression per output leaf. -/
abbrev Tmpl := Expr TLeaf

/-- A user function traced by compile: the outer list is the logical output
fields, the inner list the per-group leaf expressions of each field. -/
abbrev UserFun := List (List Tmpl)

mutual
/-- Value of an expression, given a semantics funSem for the named device
functions and a valuation of the leaves; none models failed execution (for
example a placeholder with no bound data). -/
def evalE {L : Type} (funSem : String → List NDArr → NDArr) (lv : L → Option NDArr) :
    Expr L → Option NDArr
  | .leaf x => lv x
  | .app f args => (evalEList funSem lv args).map (funSem f)
/-- Values of an argument list, failing when any member fails. -/
def evalEList {L : Type} (funSem : String → List NDArr → NDArr) (lv : L → Option NDArr) :
    ExprList L → Option (List NDArr)
  | .nil => some []
  | .cons e es =>
    match evalE funSem lv e, evalEList funSem lv es with
    | some a, some as_ => some (a :: as_)
    | _, _ => none
end

/-- Leaf valuation of graph nodes given bindings for placeholder names. -/
def phEnvEval (env : PName → Option NDArr) : PLeaf → Option NDArr
  | .placeholder n => env n
  | .dataWrapper a => some a

/-- Leaf valuation of a traced function body against a concrete nested
input. -/
def tmplLeafEval (x : List (List NDArr)) : TLeaf → Option NDArr
  | .input i j => (x.get? i).bind (fun row => row.get? j)
  | .const a => some a

/-- Value of one row of expressions, failing when any member fails. -/
def evalERow {L : Type} (funSem : String → List NDArr → NDArr) (lv : L → Option NDArr) :
    List (Expr L) → Option (List NDArr)
  | [] => some []
  | e :: es =>
    match evalE funSem lv e, evalERow funSem lv es with
    | some a, some as_ => some (a :: as_)
    | _, _ => none

/-- Value of a nested row structure of expressions. -/
def evalERows {L : Type} (funSem : String → List NDArr → NDArr) (lv : L → Option NDArr) :
    List (List (Expr L)) → Option (List (List NDArr))
  | [] => some []
  | r :: rs =>
    match evalERow funSem lv r, evalERows funSem lv rs with
    | some v, some vs => some (v :: vs)
    | _, _ => none

/-- Direct application of a pure traced user function to a concrete nested
input, the reference semantics that both backends must refine. -/
def applyUserFun (funSem : String → List NDArr → NDArr) (x : List (List NDArr))
    (f : UserFun) : Option (List (List NDArr)) :=
  evalERows funSem (tmplLeafEval x) f

mutual
/-- Tracing substitution: instantiate a user-function body over the
placeholder grid built by compile; indexing outside the grid models the
Python IndexError raised while tracing. -/
def substE (ph : List (List PtNode)) : Tmpl → Option PtNode
  | .leaf (.input i j) => (ph.get? i).bind (fun row => row.get? j)
  | .leaf (.const a) => some (.leaf (.dataWrapper a))
  | .app f args => (substEList ph args).map (Expr.app f)
/-- Tracing substitution over argument lists. -/
def substEList (ph : List (List PtNode)) : ExprList TLeaf → Option (ExprList PLeaf)
  | .nil => some .nil
  | .cons e es =>
    match substE ph e, substEList ph es with
    | some n, some ns => some (.cons n ns)
    | _, _ => none
end

/-- Tracing substitution over one output field. -/
def substRow (ph : List (List PtNode)) : List Tmpl → Option (List PtNode)
  | [] => some []
  | t :: ts =>
    match substE ph t, substRow ph ts with
    | some n, some ns => some (n :: ns)
    | _, _ => none

/-- Tracing substitution over the whole nested output structure. -/
def traceRows (ph : List (List PtNode)) : List (List Tmpl) → Option (List (List PtNode))
  | [] => some []
  | r :: rs =>
    match substRow ph r, traceRows ph rs with
    | some v, some vs => some (v :: vs)
    | _, _ => none

/-- List map that passes the element index, starting from base; models
Python enumerate. -/
def mapIdxFrom {α β : Type} (base : Nat) (g : Nat → α → β) : List α → List β
  | [] => []
  | a :: as_ => g base a :: mapIdxFrom (base + 1) g as_

/-- Model of make_placeholder_like inside PytatoArrayContext.compile: one
placeholder node named _msh_inp_i_j per leaf of the input structure. -/
def makePlaceholderLike (inputLike : List (List NDArr)) : List (List PtNode) :=
  mapIdxFrom 0
    (fun i row => mapIdxFrom 0 (fun j _ => Expr.leaf (PLeaf.placeholder (.mshInp i j))) row)
    inputLike

/-- Model of the PytatoCompiledOperator object: the lowered program is kept
as its defining named-output graph (the external graph-lowering service is
specified to produce a program computing exactly these outputs), together
with the input arity per field and the output spec recorded at compile
time. -/
structure PytatoCompiledOperator where
  outputs : List (List PtNode)
  inputSpec : List Nat
  outputSpec : List Nat

/-- Model of PytatoArrayContext.compile: build the placeholder grid, run the
user function over it once, record input_spec as the per-field leaf counts of
input_like and output_spec as the per-field leaf counts of the traced
outputs; none models an exception escaping the single tracing run. -/
def PytatoArrayContext.compile (f : UserFun) (inputLike : List (List NDArr)) :
    Option PytatoCompiledOperator :=
  let ph := makePlaceholderLike inputLike
  (traceRows ph f).map (fun outs =>
    ⟨outs, inputLike.map List.length, outs.map List.length⟩)

/-- A leaf of the nested structure handed to a compiled operator: a captured
data-wrapper node, a raw concrete cl array, or anything else (which raises
TypeError). -/
inductive OpLeaf where
  | dataWrapper (a : NDArr)
  | clArray (c : ClArray)
  | other

/-- Model of the leaf access array[i][j] with the type dispatch of
from_obj_array_to_input_dict: DataWrapper contributes its underlying data,
a cl array is passed as is, anything else raises TypeError; an out-of-range
index raises IndexError. -/
def readLeaf (fields : List (List OpLeaf)) (i j : Nat) : Except PyError NDArr :=
  match fields.get? i with
  | none => .error .indexError
  | some row =>
    match row.get? j with
    | none => .error .indexError
    | some (.dataWrapper a) => .ok a
    | some (.clArray c) => .ok c.arr
    | some .other => .error (.typeError "expected DataWrapper or CL array")

/-- Index pairs visited by the nested loops of from_obj_array_to_input_dict,
in loop order: for i over the spec starting at base, for j below spec i. -/
def specIndicesAux : Nat → List Nat → List (Nat × Nat)
  | _, [] => []
  | i, c :: rest => (List.range c).map (fun j => (i, j)) ++ specIndicesAux (i + 1) rest

/-- Index pairs visited by from_obj_array_to_input_dict. -/
def specIndices (spec : List Nat) : List (Nat × Nat) := specIndicesAux 0 spec

/-- Sequencing of the leaf reads performed by the loops of
from_obj_array_to_input_dict: the first raised exception propagates. -/
def buildInputChecks (fields : List (List OpLeaf)) : List (Nat × Nat) → Except PyError Unit
  | [] => .ok ()
  | p :: rest => (readLeaf fields p.1 p.2).bind (fun _ => buildInputChecks fields rest)

/-- Entry i of the spec, 0 when out of range (the loops never read such an
entry). -/
def specGet (spec : List Nat) (i : Nat) : Nat := (spec.get? i).getD 0

/-- Model of from_obj_array_to_input_dict in PytatoCompiledOperator.__call__:
run the nested loops, propagating their exceptions, and on success return the
produced dict, keyed by the (i, j) of the argument name _msh_inp_i_j: it
holds exactly the keys written by the loops, with the leaf data as values. -/
def fromObjArrayToInputDict (spec : List Nat) (fields : List (List OpLeaf)) :
    Except PyError ((Nat × Nat) → Option NDArr) :=
  (buildInputChecks fields (specIndices spec)).map (fun _ =>
    fun ij =>
      if ij.1 < spec.length ∧ ij.2 < specGet spec ij.1
      then (readLeaf fields ij.1 ij.2).toOption
      else none)

/-- Model of the list comprehension over return_dict in
from_return_dict_to_obj_array for one field: collect dict entries (i, j) for
j below the recorded group count, failing on a missing key; the first
argument of the recursion is the next j, the second the remaining count. -/
def rowFromDict (dict : (Nat × Nat) → Option NDArr) (i : Nat) : Nat → Nat → Option (List NDArr)
  | _, 0 => some []
  | j, c + 1 =>
    match dict (i, j), rowFromDict dict i (j + 1) c with
    | some a, some as_ => some (a :: as_)
    | _, _ => none

/-- Model of from_return_dict_to_obj_array: rebuild the nested output
structure from the flat named-result mapping using the recorded output
spec. -/
def fromReturnDictAux (dict : (Nat × Nat) → Option NDArr) : Nat → List Nat →
    Option (List (List NDArr))
  | _, [] => some []
  | i, c :: rest =>
    match rowFromDict dict i 0 c, fromReturnDictAux dict (i + 1) rest with
    | some v, some vs => some (v :: vs)
    | _, _ => none

/-- Model of PytatoCompiledOperator.__call__: build the named-argument dict
from the input structure (propagating IndexError and TypeError), execute the
lowered program, in other words evaluate every named output under the
placeholder bindings of the dict, wait for completion, and reassemble the
nested result through the recorded output spec. -/
def PytatoCompiledOperator.call (funSem : String → List NDArr → NDArr)
    (op : PytatoCompiledOperator) (fields : List (List OpLeaf)) :
    Except PyError (List (List NDArr)) :=
  match fromObjArrayToInputDict op.inputSpec fields with
  | .error e => .error e
  | .ok dict =>
    let env : PName → Option NDArr := fun n =>
      match n with
      | .mshInp i j => dict (i, j)
      | _ => none
    match evalERows funSem (phEnvEval env) op.outputs with
    | none => .error .runtimeError
    | some ret =>
      match fromReturnDictAux (fun ij => (ret.get? ij.1).bind (fun r => r.get? ij.2)) 0
          op.outputSpec with
      | some out => .ok out
      | none => .error .runtimeError

/-- Argument of the lazy-backend freeze and thaw: an already-frozen concrete
cl array, a symbolic graph node, or anything else. -/
inductive PtObj where
  | cl (c : ClArray)
  | node (n : PtNode)
  | other

/-- Model of PytatoArrayContext.freeze, instrumented with a Bool recording
whether the graph-lowering service (pt.generate_loopy) was invoked.  The
dispatch follows the source order: a Placeholder raises ValueError, a cl
array is returned detached without lowering, a non-pytato object raises
TypeError, and any other node has its dependency graph lowered, executed and
waited on, yielding a detached concrete array; a placeholder buried inside
the graph leaves the lowered program an unbound input, so execution fails. -/
def PytatoArrayContext.freezeAux (funSem : String → List NDArr → NDArr) (_q : Nat) :
    PtObj → (Except PyError ClArray) × Bool
  | .node (.leaf (.placeholder _)) =>
    (.error (.valueError "freezing placeholder would return garbage valued arrays"), false)
  | .cl c => (.ok (c.withQueue none), false)
  | .node n =>
    match evalE funSem (phEnvEval (fun _ => none)) n with
    | some a => (.ok ⟨a, none, []⟩, true)
    | none => (.error .runtimeError, true)
  | .other => (.error (.typeError "freeze invoked with non-pt arrays"), false)

/-- Model of PytatoArrayContext.freeze, the returned value alone. -/
def PytatoArrayContext.freeze (funSem : String → List NDArr → NDArr) (q : Nat)
    (x : PtObj) : Except PyError ClArray :=
  (PytatoArrayContext.freezeAux funSem q x).1

/-- Model of PytatoArrayContext.thaw: only a concrete cl array is accepted;
it is reattached to the context queue and wrapped as a data-wrapper node in
the shared namespace. -/
def PytatoArrayContext.thaw (q : Nat) : PtObj → Except PyError PtNode
  | .cl c => .ok (.leaf (.dataWrapper ((c.withQueue (some q)).arr)))
  | _ => .error (.typeError "thaw expects CL arrays")

/-- Model of PytatoArrayContext.to_numpy: freeze the argument, then read the
resulting cl array back with the context queue passed explicitly. -/
def PytatoArrayContext.toNumpy (funSem : String → List NDArr → NDArr) (q : Nat)
    (x : PtObj) : Except PyError NDArr :=
  (PytatoArrayContext.freeze funSem q x).bind (fun c => c.get (some q))

/-! Helper lemmas. -/

theorem assocLookup_upsertQueue (st : WaitState) (nm name : String) (v : List Nat) :
    assocLookup (upsertQueue st nm v) name =
      if name = nm then some v else assocLookup st name := by
  induction st with
  | nil =>
    simp only [upsertQueue, assocLookup]
    rcases eq_or_ne name nm with h | h
    · simp [h]
    · simp [h, Ne.symm h]
  | cons kv rest ih =>
    obtain ⟨k, w⟩ := kv
    simp only [upsertQueue]
    rcases eq_or_ne k nm with hk | hk
    · subst hk
      rcases eq_or_ne name k with hn | hn
      · simp [assocLookup, hn]
      · simp [assocLookup, hn, Ne.symm hn]
    · rw [if_neg hk]
      rcases eq_or_ne k name with hn | hn
      · subst hn
        simp [assocLookup, fun h2 : k = nm => hk h2, Ne.symm hk]
      · simp [assocLookup, hn, ih]

theorem callLoopyEvent_preserves_bound (bd : Nat) (st : WaitState) (name0 : String)
    (evt : Nat) (h : ∀ nm, queueLen st nm ≤ bd) :
    ∀ nm, queueLen (PyOpenCLArrayContext.callLoopyEvent (some bd) st name0 evt) nm ≤ bd := by
  intro nm
  have hq : ((assocLookup st name0).getD []).length ≤ bd := h name0
  simp only [PyOpenCLArrayContext.callLoopyEvent, queueLen, assocLookup_upsertQueue]
  rcases eq_or_ne nm name0 with hn | hn
  · rw [if_pos hn]
    simp only [Option.getD_some]
    set q := (assocLookup st name0).getD [] with hqdef
    by_cases hlt : bd < (q ++ [evt]).length
    · rw [if_pos hlt]
      simp only [List.length_drop, List.length_append, List.length_singleton]
      omega
    · rw [if_neg hlt]
      simp only [List.length_append, List.length_singleton] at hlt ⊢
      omega
  · rw [if_neg hn]
    exact h nm

theorem foldl_callLoopyEvent_bound (bd : Nat) (ds : List (String × Nat)) :
    ∀ st : WaitState, (∀ nm, queueLen st nm ≤ bd) →
      ∀ nm, queueLen
        (ds.foldl (fun st d => PyOpenCLArrayContext.callLoopyEvent (some bd) st d.1 d.2) st)
        nm ≤ bd := by
  induction ds with
  | nil => intro st h nm; simpa using h nm
  | cons d rest ih =>
    intro st h nm
    simp only [List.foldl_cons]
    exact ih _ (callLoopyEvent_preserves_bound bd st d.1 d.2 h) nm

theorem get?_set_ne {α : Type} (l : List α) (i j : Nat) (a : α) (h : i ≠ j) :
    (l.set i a).get? j = l.get? j := by
  induction l generalizing i j with
  | nil => simp
  | cons x xs ih =>
    cases i with
    | zero =>
      cases j with
      | zero => exact absurd rfl h
      | succ j2 => simp [List.set]
    | succ i2 =>
      cases j with
      | zero => simp [List.set]
      | succ j2 =>
        simp only [List.set, List.get?]
        exact ih i2 j2 (fun he => h (by rw [he]))

/-! Claim theorems. -/

/-- C2: for every PyOpenCLArrayContext whose wait-queue feature is enabled
with bound B (an integer, defaulting to 10 when the constructor argument is
None), after every call_loopy each kernel name holds at most B un-waited
completion events in _kernel_name_to_wait_event_queue: each dispatch appends
its event, and as soon as the length exceeds B the oldest event is popped and
synchronously waited on. -/
theorem wait_event_queue_length_bounded :
    PyOpenCLArrayContext.initWaitEventQueueLength .default = some 10 ∧
    ∀ (bd : Nat) (ds : List (String × Nat)) (nm : String),
      queueLen (PyOpenCLArrayContext.runDispatches (some bd) ds) nm ≤ bd := by
  refine ⟨rfl, fun bd ds nm => ?_⟩
  exact foldl_callLoopyEvent_bound bd ds [] (fun nm2 => by simp [queueLen, assocLookup]) nm

/-- C3 counterexample: looking up the unsupported name foobar on the fake
numpy namespace raises the generic Python AttributeError carrying the
attribute name, exactly the generic attribute error the claim says is not
raised, and not a dedicated unsupported-operation error. -/
theorem getattr_unsupported_is_attribute_error_cx :
    fakeNumpyGetattr "foobar" = (false, .err (.attributeError "foobar")) ∧
    isGenericAttributeError (fakeNumpyGetattr "foobar").2 = true := by
  constructor <;> decide

/-- C3 amended: for every name outside the allow-list
_numpy_math_functions, attribute lookup on the fake numpy namespace fails
deterministically, but with the generic AttributeError naming the attribute
(the standard Python missing-attribute signal), not with a dedicated
unsupported-operation error type. -/
theorem getattr_outside_allowlist_attribute_error (name : String)
    (h : name ∉ numpyMathFunctions) :
    (fakeNumpyGetattr name).2 = .err (.attributeError name) := by
  simp [fakeNumpyGetattr, h]

/-- Witness for the C3 amended theorem at the concrete name frobnicate. -/
theorem getattr_outside_allowlist_attribute_error_witness :
    "frobnicate" ∉ numpyMathFunctions ∧
      (fakeNumpyGetattr "frobnicate").2 = .err (.attributeError "frobnicate") :=
  ⟨by decide, getattr_outside_allowlist_attribute_error "frobnicate" (by decide)⟩

/-- C4: repeated requests to the per-context kernel cache with one and the
same (c_name, nargs, naxes) key return the identical kernel object and leave
the cache state unchanged, and a request served by one context instance
leaves the private cache of every other context instance untouched. -/
theorem kernel_cache_identity_and_independence :
    (∀ (st : MemoCache) (c : String) (na nx : Nat),
      (getScalarFuncLoopyProgram (getScalarFuncLoopyProgram st c na nx).2 c na nx).1
        = (getScalarFuncLoopyProgram st c na nx).1 ∧
      (getScalarFuncLoopyProgram (getScalarFuncLoopyProgram st c na nx).2 c na nx).2
        = (getScalarFuncLoopyProgram st c na nx).2) ∧
    (∀ (w : List MemoCache) (i j : Nat) (c : String) (na nx : Nat)
        (r : LoopyKernel × List MemoCache),
      i ≠ j → ctxWorldGet w i c na nx = some r → r.2.get? j = w.get? j) := by
  constructor
  · intro st c na nx
    unfold getScalarFuncLoopyProgram
    cases h : assocLookup st.entries (c, na, nx) with
    | some k => simp [h]
    | none => simp [h, assocLookup]
  · intro w i j c na nx r hij hr
    unfold ctxWorldGet at hr
    cases hw : w.get? i with
    | none => rw [hw] at hr; simp at hr
    | some st =>
      rw [hw] at hr
      rw [Option.map_some'] at hr
      injection hr with hr2
      rw [← hr2]
      exact get?_set_ne w i j _ hij

/-- Witness for C4 at a concrete two-context world: context 0 requests
(sin, 2, 3) and the cache of context 1 is untouched. -/
theorem kernel_cache_identity_and_independence_witness :
    (0 : Nat) ≠ 1 ∧
    ctxWorldGet [MemoCache.mk [] 0, MemoCache.mk [] 5] 0 "sin" 2 3 =
      some (makeScalarFuncKernel "sin" 2 3 0,
        [MemoCache.mk [(("sin", 2, 3), makeScalarFuncKernel "sin" 2 3 0)] 1,
         MemoCache.mk [] 5]) ∧
    (makeScalarFuncKernel "sin" 2 3 0,
        [MemoCache.mk [(("sin", 2, 3), makeScalarFuncKernel "sin" 2 3 0)] 1,
         MemoCache.mk [] 5]).2.get? 1
      = ([MemoCache.mk [] 0, MemoCache.mk [] 5] : List MemoCache).get? 1 :=
  ⟨by decide, by decide,
    kernel_cache_identity_and_independence.2
      [MemoCache.mk [] 0, MemoCache.mk [] 5] 0 1 "sin" 2 3 _ (by decide) (by decide)⟩

/-- C7: the claim is right and the code is wrong.  Looking up the legacy
short form asin fires the deprecation warning, whose own text promises the
old name still works, but then raises AttributeError because the allow-list
test checks the legacy name itself against _numpy_math_functions instead of
its numpy-style counterpart; meanwhile the canonical name arcsin is accepted
and dispatches on the device name asin.  So legacy inverse-trig names are
never accepted: fakeNumpyGetattr evaluates the code at the failing input. -/
theorem legacy_arc_name_warns_then_fails :
    fakeNumpyGetattr "asin" = (true, .err (.attributeError "asin")) ∧
    fakeNumpyGetattr "atan2" = (true, .err (.attributeError "atan2")) ∧
    fakeNumpyGetattr "arcsin" = (false, .elwise "asin") := by
  refine ⟨by decide, by decide, by decide⟩

/-- C9 counterexample: to_numpy applied to a frozen (queue-detached) array
succeeds and returns the host copy on both backends, instead of failing as
the claim requires: the eager backend passes its own queue to the device
read, and the lazy backend freezes its argument first. -/
theorem to_numpy_on_frozen_succeeds_cx :
    PyOpenCLArrayContext.toNumpy 0 (ClArray.mk (NDArr.mk [3] "float64" [1, 2, 3]) none [])
      = .ok (NDArr.mk [3] "float64" [1, 2, 3]) ∧
    PytatoArrayContext.toNumpy (fun _ _ => NDArr.mk [] "float64" []) 0
        (PtObj.cl (ClArray.mk (NDArr.mk [3] "float64" [1, 2, 3]) none []))
      = .ok (NDArr.mk [3] "float64" [1, 2, 3]) := by
  exact ⟨rfl, rfl⟩

/-- C9 amended: to_numpy returns a host copy preserving shape, dtype and
contents, but a frozen input is not rejected: the eager backend reads the
array with the context queue passed explicitly, without any thawed-ness
check, and the lazy backend first freezes its argument, so already-frozen
concrete arrays are accepted; the thaw-first rule is an unenforced caller
convention, not an enforced failure. -/
theorem to_numpy_amended :
    (∀ (q : Nat) (a : ClArray), PyOpenCLArrayContext.toNumpy q a = .ok a.arr) ∧
    (∀ (funSem : String → List NDArr → NDArr) (q : Nat) (c : ClArray),
      PytatoArrayContext.toNumpy funSem q (.cl c) = .ok c.arr) := by
  exact ⟨fun q a => rfl, fun funSem q c => rfl⟩

/-- C10: the elementwise dispatch builds its kernel for rank
len(args[0].shape) and binds every domain extent from args[0].shape; the
shapes of the remaining arguments are never inspected, so replacing them by
any other arrays of the same count leaves the dispatch unchanged, and the
kernel fetched from a fresh cache for that key indeed has that rank. -/
theorem elwise_dispatch_first_arg_shape
    (cName : String) (a0 : NDArr) (rest rest2 : List NDArr)
    (h : rest.length = rest2.length) :
    loopyImplementedElwiseFunc cName (a0 :: rest)
      = some ⟨cName, rest.length + 1, a0.shape.length, a0.shape⟩ ∧
    loopyImplementedElwiseFunc cName (a0 :: rest2)
      = loopyImplementedElwiseFunc cName (a0 :: rest) ∧
    (getScalarFuncLoopyProgram (MemoCache.mk [] 0) cName (rest.length + 1)
        a0.shape.length).1.naxes = a0.shape.length := by
  refine ⟨rfl, ?_, rfl⟩
  simp [loopyImplementedElwiseFunc, h]

/-- Witness for C10 at concrete arguments of differing later shapes. -/
theorem elwise_dispatch_first_arg_shape_witness :
    ([NDArr.mk [9] "f" []] : List NDArr).length = ([NDArr.mk [4, 4] "f" []] : List NDArr).length ∧
    loopyImplementedElwiseFunc "atan2" (NDArr.mk [2, 3] "f" [] :: [NDArr.mk [9] "f" []])
      = some ⟨"atan2", 2, 2, [2, 3]⟩ :=
  ⟨by decide,
    (elwise_dispatch_first_arg_shape "atan2" (NDArr.mk [2, 3] "f" [])
      [NDArr.mk [9] "f" []] [NDArr.mk [4, 4] "f" []] (by decide)).1⟩

/-- C5: freeze is idempotent on both backends.  On the eager backend,
freezing a frozen array returns it unchanged and the freeze-thaw-freeze
round trip is the identity on the frozen form; on the lazy backend, freezing
an already-frozen concrete array returns it detached with unchanged content,
and thawing a frozen result and freezing again reproduces the same
content. -/
theorem freeze_idempotent_roundtrip :
    (∀ a : ClArray,
      PyOpenCLArrayContext.freeze (PyOpenCLArrayContext.freeze a)
        = PyOpenCLArrayContext.freeze a) ∧
    (∀ (q : Nat) (a : ClArray),
      PyOpenCLArrayContext.freeze (PyOpenCLArrayContext.thaw q (PyOpenCLArrayContext.freeze a))
        = PyOpenCLArrayContext.freeze a) ∧
    (∀ (funSem : String → List NDArr → NDArr) (q : Nat) (c : ClArray),
      PytatoArrayContext.freeze funSem q (.cl c) = .ok (c.withQueue none) ∧
      (c.withQueue none).arr = c.arr) ∧
    (∀ (funSem : String → List NDArr → NDArr) (q : Nat) (x : PtObj) (c : ClArray),
      PytatoArrayContext.freeze funSem q x = .ok c →
      ∃ n c2, PytatoArrayContext.thaw q (.cl c) = .ok n ∧
        PytatoArrayContext.freeze funSem q (.node n) = .ok c2 ∧ c2.arr = c.arr) := by
  refine ⟨fun a => rfl, fun q a => rfl, fun funSem q c => ⟨rfl, rfl⟩, ?_⟩
  intro funSem q x c _hx
  exact ⟨.leaf (.dataWrapper ((c.withQueue (some q)).arr)), ⟨c.arr, none, []⟩, rfl, rfl, rfl⟩

/-- Witness for C5 at a concrete frozen array on the lazy backend. -/
theorem freeze_idempotent_roundtrip_witness :
    PytatoArrayContext.freeze (fun _ _ => NDArr.mk [] "f" []) 0
        (PtObj.cl (ClArray.mk (NDArr.mk [2] "float64" [3, 4]) (some 7) [1]))
      = .ok (ClArray.mk (NDArr.mk [2] "float64" [3, 4]) none [1]) ∧
    (∃ n c2,
      PytatoArrayContext.thaw 0
          (.cl (ClArray.mk (NDArr.mk [2] "float64" [3, 4]) none [1])) = .ok n ∧
      PytatoArrayContext.freeze (fun _ _ => NDArr.mk [] "f" []) 0 (.node n) = .ok c2 ∧
      c2.arr = (ClArray.mk (NDArr.mk [2] "float64" [3, 4]) none [1]).arr) :=
  ⟨rfl, freeze_idempotent_roundtrip.2.2.2 _ 0
    (PtObj.cl (ClArray.mk (NDArr.mk [2] "float64" [3, 4]) (some 7) [1]))
    (ClArray.mk (NDArr.mk [2] "float64" [3, 4]) none [1]) rfl⟩

/-- C6 counterexample: freezing a data-wrapper node, in other words a
symbolic node that already wraps concrete data, goes through the
graph-lowering path (instrumentation flag true) rather than being detached
and returned without lowering as the claim states; the content returned is
nonetheless the wrapped data. -/
theorem freeze_data_wrapper_lowers_cx :
    (PytatoArrayContext.freezeAux (fun _ _ => NDArr.mk [] "float64" []) 0
        (PtObj.node (Expr.leaf (PLeaf.dataWrapper (NDArr.mk [2] "float64" [1, 2]))))).2
      = true ∧
    (PytatoArrayContext.freezeAux (fun _ _ => NDArr.mk [] "float64" []) 0
        (PtObj.node (Expr.leaf (PLeaf.dataWrapper (NDArr.mk [2] "float64" [1, 2]))))).1
      = .ok (ClArray.mk (NDArr.mk [2] "float64" [1, 2]) none []) :=
  ⟨rfl, rfl⟩

/-- C6 amended: the lazy-backend freeze dispatches as follows.  Only a bare
already-frozen concrete array is detached and returned without invoking the
graph-lowering service; a placeholder node fails with ValueError; every other
symbolic node, a data-wrapper node included, has its dependency graph
lowered and executed, returning a concrete detached array (the wrapped data
itself in the data-wrapper case), or failing when the graph still contains
an unbound placeholder. -/
theorem freeze_dispatch_amended :
    (∀ (funSem : String → List NDArr → NDArr) (q : Nat) (c : ClArray),
      PytatoArrayContext.freezeAux funSem q (.cl c) = (.ok (c.withQueue none), false)) ∧
    (∀ (funSem : String → List NDArr → NDArr) (q : Nat) (nm : PName),
      PytatoArrayContext.freezeAux funSem q (.node (.leaf (.placeholder nm)))
        = (.error (.valueError "freezing placeholder would return garbage valued arrays"),
           false)) ∧
    (∀ (funSem : String → List NDArr → NDArr) (q : Nat) (a : NDArr),
      PytatoArrayContext.freezeAux funSem q (.node (.leaf (.dataWrapper a)))
        = (.ok ⟨a, none, []⟩, true)) ∧
    (∀ (funSem : String → List NDArr → NDArr) (q : Nat) (f : String) (args : ExprList PLeaf),
      PytatoArrayContext.freezeAux funSem q (.node (.app f args))
        = (match evalEList funSem (phEnvEval (fun _ => none)) args with
           | some vs => (.ok ⟨funSem f vs, none, []⟩, true)
           | none => (.error .runtimeError, true))) := by
  refine ⟨fun funSem q c => rfl, fun funSem q nm => rfl, fun funSem q a => rfl, ?_⟩
  intro funSem q f args
  cases h : evalEList funSem (phEnvEval (fun _ => none)) args <;>
    simp [PytatoArrayContext.freezeAux, evalE, h]

/-! Helper lemmas for the compile and operator claims. -/

theorem mapIdxFrom_get? {α β : Type} (g : Nat → α → β) (l : List α) :
    ∀ (b i : Nat), (mapIdxFrom b g l).get? i = (l.get? i).map (g (b + i)) := by
  induction l with
  | nil => intro b i; simp [mapIdxFrom]
  | cons a as_ ih =>
    intro b i
    cases i with
    | zero => simp [mapIdxFrom]
    | succ i2 =>
      simp only [mapIdxFrom, List.get?]
      rw [ih (b + 1) i2]
      have : b + 1 + i2 = b + (i2 + 1) := by omega
      rw [this]

theorem evalERow_length {L : Type} (funSem : String → List NDArr → NDArr)
    (lv : L → Option NDArr) :
    ∀ (r : List (Expr L)) (v : List NDArr), evalERow funSem lv r = some v →
      v.length = r.length := by
  intro r
  induction r with
  | nil => intro v h; simp only [evalERow] at h; injection h with h2; rw [← h2]; rfl
  | cons e es ih =>
    intro v h
    simp only [evalERow] at h
    cases h1 : evalE funSem lv e with
    | none => rw [h1] at h; simp at h
    | some a =>
      cases h2 : evalERow funSem lv es with
      | none => rw [h1, h2] at h; simp at h
      | some as_ =>
        rw [h1, h2] at h
        injection h with h3
        rw [← h3]
        simp [ih as_ h2]

theorem evalERows_lengths {L : Type} (funSem : String → List NDArr → NDArr)
    (lv : L → Option NDArr) :
    ∀ (rs : List (List (Expr L))) (vs : List (List NDArr)),
      evalERows funSem lv rs = some vs → vs.map List.length = rs.map List.length := by
  intro rs
  induction rs with
  | nil => intro vs h; simp only [evalERows] at h; injection h with h2; rw [← h2]; rfl
  | cons r rest ih =>
    intro vs h
    simp only [evalERows] at h
    cases h1 : evalERow funSem lv r with
    | none => rw [h1] at h; simp at h
    | some v =>
      cases h2 : evalERows funSem lv rest with
      | none => rw [h1, h2] at h; simp at h
      | some vrest =>
        rw [h1, h2] at h
        injection h with h3
        rw [← h3]
        simp [evalERow_length funSem lv r v h1, ih vrest h2]

mutual
theorem substE_eval (funSem : String → List NDArr → NDArr) (env : PName → Option NDArr)
    (x : List (List NDArr)) (ph : List (List PtNode))
    (Hin : ∀ i j n, (ph.get? i).bind (fun row => row.get? j) = some n →
      evalE funSem (phEnvEval env) n = tmplLeafEval x (.input i j)) :
    ∀ (t : Tmpl) (n : PtNode), substE ph t = some n →
      evalE funSem (phEnvEval env) n = evalE funSem (tmplLeafEval x) t
  | .leaf (.input i j), n, h => Hin i j n h
  | .leaf (.const a), n, h => by
    simp only [substE] at h
    injection h with h2
    rw [← h2]
    rfl
  | .app f args, n, h => by
    simp only [substE] at h
    cases hs : substEList ph args with
    | none => rw [hs] at h; simp at h
    | some ns =>
      rw [hs] at h
      rw [Option.map_some'] at h
      injection h with h2
      rw [← h2]
      simp only [evalE]
      rw [substEList_eval funSem env x ph Hin args ns hs]

theorem substEList_eval (funSem : String → List NDArr → NDArr) (env : PName → Option NDArr)
    (x : List (List NDArr)) (ph : List (List PtNode))
    (Hin : ∀ i j n, (ph.get? i).bind (fun row => row.get? j) = some n →
      evalE funSem (phEnvEval env) n = tmplLeafEval x (.input i j)) :
    ∀ (ts : ExprList TLeaf) (ns : ExprList PLeaf), substEList ph ts = some ns →
      evalEList funSem (phEnvEval env) ns = evalEList funSem (tmplLeafEval x) ts
  | .nil, ns, h => by
    simp only [substEList] at h
    injection h with h2
    rw [← h2]
    rfl
  | .cons t ts, ns, h => by
    simp only [substEList] at h
    cases h1 : substE ph t with
    | none => rw [h1] at h; simp at h
    | some n =>
      cases h2 : substEList ph ts with
      | none => rw [h1, h2] at h; simp at h
      | some ns2 =>
        rw [h1, h2] at h
        injection h with h3
        rw [← h3]
        simp only [evalEList]
        rw [substE_eval funSem env x ph Hin t n h1,
            substEList_eval funSem env x ph Hin ts ns2 h2]
end

theorem substRow_eval (funSem : String → List NDArr → NDArr) (env : PName → Option NDArr)
    (x : List (List NDArr)) (ph : List (List PtNode))
    (Hin : ∀ i j n, (ph.get? i).bind (fun row => row.get? j) = some n →
      evalE funSem (phEnvEval env) n = tmplLeafEval x (.input i j)) :
    ∀ (r : List Tmpl) (nr : List PtNode), substRow ph r = some nr →
      evalERow funSem (phEnvEval env) nr = evalERow funSem (tmplLeafEval x) r := by
  intro r
  induction r with
  | nil => intro nr h; simp only [substRow] at h; injection h with h2; rw [← h2]; rfl
  | cons t ts ih =>
    intro nr h
    simp only [substRow] at h
    cases h1 : substE ph t with
    | none => rw [h1] at h; simp at h
    | some n =>
      cases h2 : substRow ph ts with
      | none => rw [h1, h2] at h; simp at h
      | some ns =>
        rw [h1, h2] at h
        injection h with h3
        rw [← h3]
        simp only [evalERow]
        rw [substE_eval funSem env x ph Hin t n h1, ih ns h2]

theorem traceRows_eval (funSem : String → List NDArr → NDArr) (env : PName → Option NDArr)
    (x : List (List NDArr)) (ph : List (List PtNode))
    (Hin : ∀ i j n, (ph.get? i).bind (fun row => row.get? j) = some n →
      evalE funSem (phEnvEval env) n = tmplLeafEval x (.input i j)) :
    ∀ (rows : List (List Tmpl)) (outs : List (List PtNode)), traceRows ph rows = some outs →
      evalERows funSem (phEnvEval env) outs = evalERows funSem (tmplLeafEval x) rows := by
  intro rows
  induction rows with
  | nil => intro outs h; simp only [traceRows] at h; injection h with h2; rw [← h2]; rfl
  | cons r rest ih =>
    intro outs h
    simp only [traceRows] at h
    cases h1 : substRow ph r with
    | none => rw [h1] at h; simp at h
    | some nr =>
      cases h2 : traceRows ph rest with
      | none => rw [h1, h2] at h; simp at h
      | some nrest =>
        rw [h1, h2] at h
        injection h with h3
        rw [← h3]
        simp only [evalERows]
        rw [substRow_eval funSem env x ph Hin r nr h1, ih nrest h2]

theorem buildInputChecks_all_ok (fields : List (List OpLeaf)) :
    ∀ (l : List (Nat × Nat)),
      (∀ p ∈ l, ∃ a, readLeaf fields p.1 p.2 = .ok a) →
      buildInputChecks fields l = .ok () := by
  intro l
  induction l with
  | nil => intro _; rfl
  | cons p rest ih =>
    intro H
    obtain ⟨a, ha⟩ := H p (List.mem_cons_self p rest)
    simp only [buildInputChecks, ha, Except.bind]
    exact ih (fun q hq => H q (List.mem_cons_of_mem p hq))

theorem buildInputChecks_append_ok (fields : List (List OpLeaf)) :
    ∀ (l1 l2 : List (Nat × Nat)), buildInputChecks fields l1 = .ok () →
      buildInputChecks fields (l1 ++ l2) = buildInputChecks fields l2 := by
  intro l1
  induction l1 with
  | nil => intro l2 _; rfl
  | cons p rest ih =>
    intro l2 h
    simp only [buildInputChecks] at h ⊢
    cases hr : readLeaf fields p.1 p.2 with
    | error e => rw [hr] at h; simp [Except.bind] at h
    | ok a =>
      rw [hr] at h
      simp only [Except.bind] at h ⊢
      exact ih l2 h

theorem buildInputChecks_specAux_ok (fields : List (List OpLeaf)) :
    ∀ (spec : List Nat) (b : Nat),
      (∀ k j, k < spec.length → j < specGet spec k → ∃ a, readLeaf fields (b + k) j = .ok a) →
      buildInputChecks fields (specIndicesAux b spec) = .ok () := by
  intro spec
  induction spec with
  | nil => intro b _; rfl
  | cons c rest ih =>
    intro b H
    simp only [specIndicesAux]
    have h1 : buildInputChecks fields ((List.range c).map (fun j => (b, j))) = .ok () := by
      apply buildInputChecks_all_ok
      intro p hp
      obtain ⟨j, hj, hpj⟩ := List.mem_map.mp hp
      rw [← hpj]
      have hj2 : j < c := List.mem_range.mp hj
      have := H 0 j (by simp) (by simpa [specGet])
      simpa using this
    rw [buildInputChecks_append_ok fields _ _ h1]
    apply ih (b + 1)
    intro k j hk hj
    have := H (k + 1) j (by simpa using hk) (by simpa [specGet] using hj)
    have harith : b + (k + 1) = b + 1 + k := by omega
    rw [harith] at this
    exact this

theorem buildInputChecks_error_of_mem (fields : List (List OpLeaf)) :
    ∀ (l : List (Nat × Nat)) (p : Nat × Nat), p ∈ l →
      (∀ a, readLeaf fields p.1 p.2 ≠ .ok a) →
      ∃ e, buildInputChecks fields l = .error e := by
  intro l
  induction l with
  | nil => intro p hp; simp at hp
  | cons q rest ih =>
    intro p hp hbad
    rcases List.mem_cons.mp hp with hq | hrest
    · cases hr : readLeaf fields q.1 q.2 with
      | error e => exact ⟨e, by simp [buildInputChecks, hr, Except.bind]⟩
      | ok a => exact absurd (hq ▸ hr) (fun h => hbad a h)
    · cases hr : readLeaf fields q.1 q.2 with
      | error e => exact ⟨e, by simp [buildInputChecks, hr, Except.bind]⟩
      | ok a =>
        obtain ⟨e, he⟩ := ih p hrest hbad
        exact ⟨e, by simp [buildInputChecks, hr, Except.bind, he]⟩

theorem mem_specIndicesAux_of :
    ∀ (spec : List Nat) (b k j : Nat), k < spec.length → j < specGet spec k →
      (b + k, j) ∈ specIndicesAux b spec := by
  intro spec
  induction spec with
  | nil => intro b k j hk; simp at hk
  | cons c rest ih =>
    intro b k j hk hj
    simp only [specIndicesAux, List.mem_append]
    cases k with
    | zero =>
      left
      apply List.mem_map.mpr
      exact ⟨j, List.mem_range.mpr (by simpa [specGet] using hj), by simp⟩
    | succ k2 =>
      right
      have harith : b + (k2 + 1) = b + 1 + k2 := by omega
      rw [harith]
      exact ih (b + 1) k2 j (by simpa using hk) (by simpa [specGet] using hj)

theorem of_mem_specIndicesAux :
    ∀ (spec : List Nat) (b : Nat) (p : Nat × Nat), p ∈ specIndicesAux b spec →
      ∃ k, k < spec.length ∧ p.1 = b + k ∧ p.2 < specGet spec k := by
  intro spec
  induction spec with
  | nil => intro b p hp; simp [specIndicesAux] at hp
  | cons c rest ih =>
    intro b p hp
    simp only [specIndicesAux, List.mem_append] at hp
    rcases hp with hmap | hrest
    · obtain ⟨j, hj, hpj⟩ := List.mem_map.mp hmap
      refine ⟨0, by simp, ?_, ?_⟩
      · rw [← hpj]; simp
      · rw [← hpj]; simpa [specGet] using List.mem_range.mp hj
    · obtain ⟨k2, hk2, hp1, hp2⟩ := ih (b + 1) p hrest
      refine ⟨k2 + 1, by simpa using hk2, by omega, by simpa [specGet] using hp2⟩

theorem rowFromDict_drop (r : List NDArr) (dict : (Nat × Nat) → Option NDArr) (i : Nat)
    (hd : ∀ j, dict (i, j) = r.get? j) :
    ∀ (c j : Nat), j + c = r.length → rowFromDict dict i j c = some (r.drop j) := by
  intro c
  induction c with
  | zero =>
    intro j hj
    have : j = r.length := by omega
    rw [this]
    simp [rowFromDict, List.drop_length]
  | succ c2 ih =>
    intro j hj
    have hjlt : j < r.length := by omega
    simp only [rowFromDict]
    rw [hd j, List.get?_eq_get hjlt, ih (j + 1) (by omega)]
    exact congrArg some (List.get_cons_drop r ⟨j, hjlt⟩)

theorem fromReturnDictAux_rows (dict : (Nat × Nat) → Option NDArr) :
    ∀ (ret : List (List NDArr)) (base : Nat),
      (∀ k j, dict (base + k, j) = (ret.get? k).bind (fun r => r.get? j)) →
      fromReturnDictAux dict base (ret.map List.length) = some ret := by
  intro ret
  induction ret with
  | nil => intro base _; rfl
  | cons r rest ih =>
    intro base H
    simp only [List.map_cons, fromReturnDictAux]
    have h1 : rowFromDict dict base 0 r.length = some r := by
      have := rowFromDict_drop r dict base (fun j => by simpa using H 0 j) r.length 0 (by omega)
      simpa using this
    have h2 : fromReturnDictAux dict (base + 1) (rest.map List.length) = some rest := by
      apply ih (base + 1)
      intro k j
      have harith : base + 1 + k = base + (k + 1) := by omega
      rw [harith, H (k + 1) j]
      simp
    rw [h1, h2]


theorem placeholder_grid_get (inputLike : List (List NDArr)) (i j : Nat) (n : PtNode)
    (h : ((makePlaceholderLike inputLike).get? i).bind (fun row => row.get? j) = some n) :
    n = .leaf (.placeholder (.mshInp i j)) ∧
      ∃ rowI, inputLike.get? i = some rowI ∧ j < rowI.length := by
  unfold makePlaceholderLike at h
  rw [mapIdxFrom_get?] at h
  cases hI : inputLike.get? i with
  | none => rw [hI] at h; simp at h
  | some rowI =>
    rw [hI] at h
    simp only [Option.map_some', Option.some_bind] at h
    rw [mapIdxFrom_get?] at h
    cases hJ : rowI.get? j with
    | none => rw [hJ] at h; simp at h
    | some a =>
      rw [hJ] at h
      simp only [Option.map_some', Nat.zero_add] at h
      injection h with h2
      have hlt : j < rowI.length := by
        by_contra hc
        push_neg at hc
        rw [List.get?_eq_none.mpr hc] at hJ
        exact Option.noConfusion hJ
      exact ⟨h2.symm, rowI, rfl, hlt⟩

theorem clarray_leaf_lookup (x : List (List ClArray)) (inputLike : List (List NDArr))
    (hlen : x.map List.length = inputLike.map List.length) (i j : Nat) (rowI : List NDArr)
    (hI : inputLike.get? i = some rowI) (hj : j < rowI.length) :
    ∃ c : ClArray, (x.get? i).bind (fun row => row.get? j) = some c := by
  have hrow := congrArg (fun l => l.get? i) hlen
  simp only [List.get?_map] at hrow
  rw [hI] at hrow
  cases hX : x.get? i with
  | none => rw [hX] at hrow; simp at hrow
  | some rowX =>
    rw [hX] at hrow
    simp only [Option.map_some'] at hrow
    injection hrow with h5
    have h6 : j < rowX.length := by rw [h5]; exact hj
    refine ⟨rowX.get ⟨j, h6⟩, ?_⟩
    simp [List.get?_eq_get h6]

theorem clarray_leaf_values (x : List (List ClArray)) (i j : Nat) (c : ClArray)
    (h : (x.get? i).bind (fun row => row.get? j) = some c) :
    readLeaf (x.map (fun row => row.map OpLeaf.clArray)) i j = .ok c.arr ∧
    ((x.map (fun row => row.map ClArray.arr)).get? i).bind (fun row => row.get? j)
      = some c.arr := by
  cases hX : x.get? i with
  | none => rw [hX] at h; simp at h
  | some rowX =>
    rw [hX] at h
    simp only [Option.some_bind] at h
    constructor
    · simp only [readLeaf, List.get?_map, hX, Option.map_some']
      rw [h]
      rfl
    · simp only [List.get?_map, hX, Option.map_some', Option.some_bind]
      rw [h]
      rfl

theorem call_eval_steps (funSem : String → List NDArr → NDArr)
    (op : PytatoCompiledOperator) (fields : List (List OpLeaf))
    (dict : (Nat × Nat) → Option NDArr) (ret : List (List NDArr))
    (h1 : fromObjArrayToInputDict op.inputSpec fields = .ok dict)
    (h2 : evalERows funSem (phEnvEval (fun n => match n with
            | .mshInp i j => dict (i, j)
            | _ => none)) op.outputs = some ret)
    (h3 : fromReturnDictAux (fun ij => (ret.get? ij.1).bind (fun r2 => r2.get? ij.2)) 0
            op.outputSpec = some ret) :
    PytatoCompiledOperator.call funSem op fields = .ok ret := by
  simp only [PytatoCompiledOperator.call, h1]
  simp only [h2]
  simp only [h3]

/-- C1: the compiled operator refines direct application on both backends.
On the eager backend compile returns f itself.  On the lazy backend, for
every pure traced user function f, every input_like, and every concrete
input x of matching nested structure, when tracing succeeded at compile time
and the direct application f applied to x is defined, the compiled operator
applied to x returns exactly the nested structure and leaf values of f
applied to x. -/
theorem compile_refines_direct_application
    (funSem : String → List NDArr → NDArr) (f : UserFun)
    (inputLike : List (List NDArr)) (x : List (List ClArray))
    (op : PytatoCompiledOperator) (r : List (List NDArr))
    (hcomp : PytatoArrayContext.compile f inputLike = some op)
    (hlen : x.map List.length = inputLike.map List.length)
    (hdirect : applyUserFun funSem (x.map (fun row => row.map ClArray.arr)) f = some r) :
    PytatoCompiledOperator.call funSem op (x.map (fun row => row.map OpLeaf.clArray)) = .ok r ∧
    (∀ (α β : Type) (g : α → β) (y : α), PyOpenCLArrayContext.compile g y = g y) := by
  refine ⟨?_, fun α β g y => rfl⟩
  simp only [PytatoArrayContext.compile] at hcomp
  cases htr : traceRows (makePlaceholderLike inputLike) f with
  | none => rw [htr] at hcomp; simp at hcomp
  | some outs =>
    rw [htr] at hcomp
    rw [Option.map_some'] at hcomp
    injection hcomp with hop
    subst hop
    have hchecks : buildInputChecks (x.map (fun row => row.map OpLeaf.clArray))
        (specIndices (inputLike.map List.length)) = .ok () := by
      unfold specIndices
      apply buildInputChecks_specAux_ok
      intro k j hk hj
      rw [Nat.zero_add]
      have hk2 : k < inputLike.length := by simpa using hk
      have hI : inputLike.get? k = some (inputLike.get ⟨k, hk2⟩) := List.get?_eq_get hk2
      have hjI : j < (inputLike.get ⟨k, hk2⟩).length := by
        have hI9 : inputLike[k]? = some (inputLike.get ⟨k, hk2⟩) := by simpa using hI
        simpa [specGet, List.get?_map, hI9] using hj
      obtain ⟨c, hc⟩ := clarray_leaf_lookup x inputLike hlen k j _ hI hjI
      exact ⟨c.arr, (clarray_leaf_values x k j c hc).1⟩
    have h1 : fromObjArrayToInputDict (inputLike.map List.length)
        (x.map (fun row => row.map OpLeaf.clArray)) = .ok (fun ij =>
          if ij.1 < (inputLike.map List.length).length ∧
              ij.2 < specGet (inputLike.map List.length) ij.1
          then (readLeaf (x.map (fun row => row.map OpLeaf.clArray)) ij.1 ij.2).toOption
          else none) := by
      simp only [fromObjArrayToInputDict, hchecks, Except.map]
    have Hin : ∀ i j n,
        ((makePlaceholderLike inputLike).get? i).bind (fun row => row.get? j) = some n →
        evalE funSem (phEnvEval (fun nn => match nn with
          | .mshInp i2 j2 =>
            if i2 < (inputLike.map List.length).length ∧
                j2 < specGet (inputLike.map List.length) i2
            then (readLeaf (x.map (fun row => row.map OpLeaf.clArray)) i2 j2).toOption
            else none
          | _ => none)) n
          = tmplLeafEval (x.map (fun row => row.map ClArray.arr)) (.input i j) := by
      intro i j n hn
      obtain ⟨hneq, rowI, hI, hjI⟩ := placeholder_grid_get inputLike i j n hn
      subst hneq
      obtain ⟨c, hc⟩ := clarray_leaf_lookup x inputLike hlen i j rowI hI hjI
      obtain ⟨hread, hdata⟩ := clarray_leaf_values x i j c hc
      have hi2 : i < inputLike.length := by
        by_contra hcc
        push_neg at hcc
        rw [List.get?_eq_none.mpr hcc] at hI
        exact Option.noConfusion hI
      have hcond : i < (inputLike.map List.length).length ∧
          j < specGet (inputLike.map List.length) i := by
        refine ⟨by simpa using hi2, ?_⟩
        have hI9 : inputLike[i]? = some rowI := by simpa using hI
        simpa [specGet, List.get?_map, hI9] using hjI
      show (if i < (inputLike.map List.length).length ∧
            j < specGet (inputLike.map List.length) i
          then (readLeaf (x.map (fun row => row.map OpLeaf.clArray)) i j).toOption
          else none)
          = tmplLeafEval (x.map (fun row => row.map ClArray.arr)) (.input i j)
      rw [if_pos hcond, hread]
      simp only [Except.toOption, tmplLeafEval]
      exact hdata.symm
    have h2 : evalERows funSem (phEnvEval (fun nn => match nn with
        | .mshInp i2 j2 =>
          if i2 < (inputLike.map List.length).length ∧
              j2 < specGet (inputLike.map List.length) i2
          then (readLeaf (x.map (fun row => row.map OpLeaf.clArray)) i2 j2).toOption
          else none
        | _ => none)) outs = some r := by
      rw [traceRows_eval funSem _ (x.map (fun row => row.map ClArray.arr))
        (makePlaceholderLike inputLike) Hin f outs htr]
      exact hdirect
    have hlens : r.map List.length = outs.map List.length :=
      evalERows_lengths funSem _ outs r h2
    have h3 : fromReturnDictAux (fun ij => (r.get? ij.1).bind (fun r2 => r2.get? ij.2)) 0
        (outs.map List.length) = some r := by
      rw [← hlens]
      apply fromReturnDictAux_rows
      intro k j
      simp
    exact call_eval_steps funSem
      ⟨outs, inputLike.map List.length, outs.map List.length⟩
      (x.map (fun row => row.map OpLeaf.clArray)) _ r h1 h2 h3

/-- Witness for C1: a two-field function with differing group counts built
from the first input leaf, traced over a concrete input_like and applied to
concrete arrays. -/
theorem compile_refines_direct_application_witness :
    PytatoArrayContext.compile
        [[Expr.leaf (TLeaf.input 0 0)],
         [Expr.leaf (TLeaf.input 0 0), Expr.leaf (TLeaf.input 1 0)]]
        [[NDArr.mk [2] "float64" [0, 0]], [NDArr.mk [1] "float64" [0]]]
      = some ⟨[[Expr.leaf (PLeaf.placeholder (PName.mshInp 0 0))],
               [Expr.leaf (PLeaf.placeholder (PName.mshInp 0 0)),
                Expr.leaf (PLeaf.placeholder (PName.mshInp 1 0))]], [1, 1], [1, 2]⟩ ∧
    ([[ClArray.mk (NDArr.mk [2] "float64" [5, 6]) (some 3) []],
      [ClArray.mk (NDArr.mk [1] "float64" [7]) (some 3) []]].map List.length
      = [[NDArr.mk [2] "float64" [0, 0]], [NDArr.mk [1] "float64" [0]]].map List.length) ∧
    applyUserFun (fun _ _ => NDArr.mk [] "f" [])
        ([[ClArray.mk (NDArr.mk [2] "float64" [5, 6]) (some 3) []],
          [ClArray.mk (NDArr.mk [1] "float64" [7]) (some 3) []]].map
            (fun row => row.map ClArray.arr))
        [[Expr.leaf (TLeaf.input 0 0)],
         [Expr.leaf (TLeaf.input 0 0), Expr.leaf (TLeaf.input 1 0)]]
      = some [[NDArr.mk [2] "float64" [5, 6]],
              [NDArr.mk [2] "float64" [5, 6], NDArr.mk [1] "float64" [7]]] ∧
    (PytatoCompiledOperator.call (fun _ _ => NDArr.mk [] "f" [])
        ⟨[[Expr.leaf (PLeaf.placeholder (PName.mshInp 0 0))],
          [Expr.leaf (PLeaf.placeholder (PName.mshInp 0 0)),
           Expr.leaf (PLeaf.placeholder (PName.mshInp 1 0))]], [1, 1], [1, 2]⟩
        ([[ClArray.mk (NDArr.mk [2] "float64" [5, 6]) (some 3) []],
          [ClArray.mk (NDArr.mk [1] "float64" [7]) (some 3) []]].map
            (fun row => row.map OpLeaf.clArray))
      = .ok [[NDArr.mk [2] "float64" [5, 6]],
             [NDArr.mk [2] "float64" [5, 6], NDArr.mk [1] "float64" [7]]] ∧
     (∀ (α β : Type) (g : α → β) (y : α), PyOpenCLArrayContext.compile g y = g y)) :=
  ⟨rfl, rfl, rfl,
    compile_refines_direct_application (fun _ _ => NDArr.mk [] "f" [])
      [[Expr.leaf (TLeaf.input 0 0)],
       [Expr.leaf (TLeaf.input 0 0), Expr.leaf (TLeaf.input 1 0)]]
      [[NDArr.mk [2] "float64" [0, 0]], [NDArr.mk [1] "float64" [0]]]
      [[ClArray.mk (NDArr.mk [2] "float64" [5, 6]) (some 3) []],
       [ClArray.mk (NDArr.mk [1] "float64" [7]) (some 3) []]]
      ⟨[[Expr.leaf (PLeaf.placeholder (PName.mshInp 0 0))],
        [Expr.leaf (PLeaf.placeholder (PName.mshInp 0 0)),
         Expr.leaf (PLeaf.placeholder (PName.mshInp 1 0))]], [1, 1], [1, 2]⟩
      [[NDArr.mk [2] "float64" [5, 6]],
       [NDArr.mk [2] "float64" [5, 6], NDArr.mk [1] "float64" [7]]]
      rfl rfl rfl⟩

theorem buildInputChecks_congr (fields fields2 : List (List OpLeaf)) :
    ∀ (l : List (Nat × Nat)),
      (∀ p ∈ l, readLeaf fields2 p.1 p.2 = readLeaf fields p.1 p.2) →
      buildInputChecks fields2 l = buildInputChecks fields l := by
  intro l
  induction l with
  | nil => intro _; rfl
  | cons p rest ih =>
    intro H
    simp only [buildInputChecks, H p (List.mem_cons_self p rest)]
    cases readLeaf fields p.1 p.2 with
    | error e => rfl
    | ok a =>
      simp only [Except.bind]
      exact ih (fun q hq => H q (List.mem_cons_of_mem p hq))

/-- C8 amended: a compiled operator fails on inputs that are structurally
too small for the recorded spec: whenever some spec position (i, jb) cannot
be read from the input (missing field, missing group, or invalid leaf type)
the call raises; but the operator reads only the spec positions, so an input
that agrees with another on every spec position, extra fields and groups
included, produces the identical outcome: surplus structure is silently
ignored, not rejected. -/
theorem operator_structural_check_amended :
    (∀ (funSem : String → List NDArr → NDArr) (op : PytatoCompiledOperator)
        (fields : List (List OpLeaf)) (i jb : Nat),
      i < op.inputSpec.length → jb < specGet op.inputSpec i →
      (∀ a, readLeaf fields i jb ≠ .ok a) →
      ∃ e, PytatoCompiledOperator.call funSem op fields = .error e) ∧
    (∀ (funSem : String → List NDArr → NDArr) (op : PytatoCompiledOperator)
        (fields fields2 : List (List OpLeaf)),
      (∀ i j, i < op.inputSpec.length → j < specGet op.inputSpec i →
        readLeaf fields2 i j = readLeaf fields i j) →
      PytatoCompiledOperator.call funSem op fields2
        = PytatoCompiledOperator.call funSem op fields) := by
  constructor
  · intro funSem op fields i jb hi hjb hbad
    have hmem : (i, jb) ∈ specIndices op.inputSpec := by
      have := mem_specIndicesAux_of op.inputSpec 0 i jb hi hjb
      simpa using this
    obtain ⟨e, he⟩ :=
      buildInputChecks_error_of_mem fields (specIndices op.inputSpec) (i, jb) hmem hbad
    refine ⟨e, ?_⟩
    simp only [PytatoCompiledOperator.call, fromObjArrayToInputDict, he, Except.map]
  · intro funSem op fields fields2 hagree
    have hchecks : buildInputChecks fields2 (specIndices op.inputSpec)
        = buildInputChecks fields (specIndices op.inputSpec) := by
      apply buildInputChecks_congr
      intro p hp
      obtain ⟨k, hk, hp1, hp2⟩ := of_mem_specIndicesAux op.inputSpec 0 p hp
      have hp1b : p.1 = k := by omega
      rw [hp1b]
      exact hagree k p.2 hk (hp1b ▸ hp2)
    have hdicts : fromObjArrayToInputDict op.inputSpec fields2
        = fromObjArrayToInputDict op.inputSpec fields := by
      simp only [fromObjArrayToInputDict, hchecks]
      cases hb : buildInputChecks fields (specIndices op.inputSpec) with
      | error e => rfl
      | ok u =>
        simp only [Except.map]
        congr 1
        funext ij
        by_cases hc : ij.1 < op.inputSpec.length ∧ ij.2 < specGet op.inputSpec ij.1
        · rw [if_pos hc, if_pos hc, hagree ij.1 ij.2 hc.1 hc.2]
        · rw [if_neg hc, if_neg hc]
    unfold PytatoCompiledOperator.call
    rw [hdicts]

/-- Witness for C8 amended: calling a one-field operator with an empty
input structure fails. -/
theorem operator_structural_check_amended_witness :
    (0 < (([1] : List Nat)).length ∧ 0 < specGet [1] 0) ∧
    (∃ e, PytatoCompiledOperator.call (fun _ _ => NDArr.mk [] "f" [])
        ⟨[[Expr.leaf (PLeaf.placeholder (PName.mshInp 0 0))]], [1], [1]⟩ [] = .error e) :=
  ⟨⟨by decide, by decide⟩,
    operator_structural_check_amended.1 (fun _ _ => NDArr.mk [] "f" [])
      ⟨[[Expr.leaf (PLeaf.placeholder (PName.mshInp 0 0))]], [1], [1]⟩ [] 0 0
      (by decide) (by decide) (by intro a h; simp [readLeaf] at h)⟩

/-- C8 counterexample: an operator compiled for one field with one group,
invoked with two fields, does not fail: the extra field is silently ignored
and the call succeeds, contradicting the claim that a mismatched field count
always fails. -/
theorem operator_extra_fields_accepted_cx :
    PytatoArrayContext.compile [[Expr.leaf (TLeaf.input 0 0)]] [[NDArr.mk [2] "f" [0, 0]]]
      = some ⟨[[Expr.leaf (PLeaf.placeholder (PName.mshInp 0 0))]], [1], [1]⟩ ∧
    PytatoCompiledOperator.call (fun _ _ => NDArr.mk [] "f" [])
        ⟨[[Expr.leaf (PLeaf.placeholder (PName.mshInp 0 0))]], [1], [1]⟩
        [[OpLeaf.clArray (ClArray.mk (NDArr.mk [2] "f" [5, 6]) (some 3) [])],
         [OpLeaf.clArray (ClArray.mk (NDArr.mk [1] "f" [7]) (some 3) [])]]
      = .ok [[NDArr.mk [2] "f" [5, 6]]] :=
  ⟨rfl, rfl⟩
